import Mathlib

/-!
Verification of the Urdu→English voice-translation pipeline (`app.py`).

The script is a four-stage sequential pipeline: record audio, transcribe it
with a speech model, translate the text, and speak the result.  The external
model calls (whisper, the Marian translator, the TTS engine, the sound device
and file system) are opaque collaborators; we embed them as environment fields
that either yield a value or signal the exception the Python code would catch.
All string processing (Python `str.replace`, `str.strip`, truthiness) is
embedded faithfully over `List Char` / `String`; audio samples are idealised
as rationals.
-/

namespace UrduApp

/-! Section: Python string primitives -/

/-- Fuel-driven worker for Python's `str.replace`: scans left to right and
replaces each leftmost non-overlapping occurrence of `pat` by `repl`.
Fuel at least the length of the string is enough, since every step consumes
at least one character. -/
def replaceAllF : Nat → List Char → List Char → List Char → List Char
  | 0, _, _, s => s
  | _ + 1, _, _, [] => []
  | fuel + 1, pat, repl, c :: rest =>
    if pat ≠ [] ∧ pat <+: (c :: rest) then
      repl ++ replaceAllF fuel pat repl ((c :: rest).drop pat.length)
    else
      c :: replaceAllF fuel pat repl rest

/-- Python `s.replace(pat, repl)` on character lists (for the non-empty
patterns used in the script). -/
def replaceAll (pat repl s : List Char) : List Char :=
  replaceAllF s.length pat repl s

/-- Whitespace characters recognised by Python's `str.strip()` (the ASCII
ones; the script's strings contain no exotic Unicode spaces). -/
def pyIsSpace (c : Char) : Bool :=
  c = ' ' || c = '\t' || c = '\n' || c = '\r' || c = '\x0b' || c = '\x0c'

/-- Drop leading whitespace. -/
def dropLeading : List Char → List Char
  | [] => []
  | c :: rest => if pyIsSpace c then dropLeading rest else c :: rest

/-- Python `s.strip()`: drop leading and trailing whitespace. -/
def pyStrip (l : List Char) : List Char :=
  (dropLeading ((dropLeading l).reverse)).reverse

/-- Python `s.replace(pat, repl)` on `String`. -/
def pyReplace (s pat repl : String) : String :=
  ⟨replaceAll pat.data repl.data s.data⟩

/-- Python `s.strip()` on `String`. -/
def pyStripS (s : String) : String :=
  ⟨pyStrip s.data⟩

/-! Section: stage 2, transcription (`transcribe_urdu`, app.py lines 74–100) -/

/-- The "Common Urdu corrections" dictionary (app.py lines 89–93), in
insertion order.  Each key is byte-for-byte the literal that also appears as
its value. -/
def corrections : List (String × String) :=
  [("ہے", "ہے"), ("ہیں", "ہیں"), ("میں", "میں")]

/-- The correction loop of `transcribe_urdu` (app.py lines 94–95):
`text = text.replace(wrong, correct)` over the dictionary items. -/
def applyCorrections (text : String) : String :=
  corrections.foldl (fun t p => pyReplace t p.1 p.2) text

/-- Embedding of `transcribe_urdu` (app.py lines 74–100).  The whisper model call is an
opaque collaborator: `whisperOut` is `some raw` when
`models['whisper'].transcribe(...)['text']` yields `raw`, and `none` when the
call raises (the `except` branch prints and returns `None`).  On success the
code strips the text and applies the correction map. -/
def transcribe_urdu (whisperOut : Option String) : Option String :=
  match whisperOut with
  | none => none
  | some raw => some (applyCorrections (pyStripS raw))

/-! Section: stage 3, translation (`translate_urdu`, app.py lines 104–129) -/

/-- The "Post-translation fixes" dictionary (app.py lines 118–122), in
insertion order. -/
def fixes : List (String × String) :=
  [("I am", "I"), ("you are", "you"), ("he is", "he")]

/-- The fix loop of `translate_urdu` (app.py lines 123–124). -/
def applyFixes (english : String) : String :=
  fixes.foldl (fun t p => pyReplace t p.1 p.2) english

/-- Pre-processing of `translate_urdu` (app.py line 110):
`urdu_text.replace("۔", ".").replace("ہے", " ہے ")`. -/
def preprocess (t : String) : String :=
  pyReplace (pyReplace t "۔" ".") "ہے" " ہے "

/-- Instrumented embedding of `translate_urdu` (app.py lines 104–129).  `nmt` is the
opaque tokenizer→generate→decode composite (app.py lines 113–115): `some e`
when it produces the decoded string `e`, `none` when any of those calls raises
(caught by the `except` branch, which returns `None`).  The result pairs the
Python return value with a flag recording whether the tokenizer/model was
invoked.  The guard (line 106) `if not urdu_text or len(urdu_text) < 3:
return None` is the `none` / short-string early return (an empty string has
length `0 < 3`, so truthiness and the length test collapse). -/
def translate_urdu_run (nmt : String → Option String) (urdu_text : Option String) :
    Option String × Bool :=
  match urdu_text with
  | none => (none, false)
  | some t =>
    if t.length < 3 then (none, false)
    else
      match nmt (preprocess t) with
      | none => (none, true)
      | some english => (some (applyFixes english), true)

/-- The call shape `translate_urdu(urdu_text)` used by `main` (on an actual string). -/
def translate_urdu (nmt : String → Option String) (t : String) : Option String :=
  (translate_urdu_run nmt (some t)).1

/-! Section: stage 1, recording (`record_urdu_audio`, app.py lines 16–41).

`sounddevice.rec`/`wait` either returns a buffer or raises;
`scipy.io.wavfile.write` and the pydub reload/normalize/export either succeed
or raise.  Any raise lands in the `except` branch, which prints and returns
`False`. -/

/-- Peak absolute amplitude, `np.max(np.abs(audio))` (app.py line 29). -/
def peakAbs (l : List ℚ) : ℚ :=
  (l.map (fun x => |x|)).foldr max 0

/-- Normalization `audio = audio / np.max(np.abs(audio))` (app.py line 29): elementwise
division by the peak, with no guard against a zero peak. -/
def normalize (l : List ℚ) : List ℚ :=
  l.map (fun x => x / peakAbs l)

/-- Environment of one `record_urdu_audio` call: prior existence of
`urdu_audio.wav`, the capture result (`none` = raise), whether the `write` of
the given samples succeeds, and whether the pydub pass succeeds. -/
structure RecEnv where
  fileExists0 : Bool
  capture : Option (List ℚ)
  write : List ℚ → Bool
  pydubOk : Bool

/-- Embedding of `record_urdu_audio` (app.py lines 16–41): returns (Python return value,
whether `urdu_audio.wav` exists on disk afterwards).  The file comes into
existence exactly when `write(filename, fs, audio)` succeeds; a raise before
that leaves the disk as it was. -/
def recordRun (env : RecEnv) : Bool × Bool :=
  match env.capture with
  | none => (false, env.fileExists0)
  | some audio =>
    if env.write (normalize audio) then
      if env.pydubOk then (true, true) else (false, true)
    else
      (false, env.fileExists0)

/-- The Boolean `record_urdu_audio` returns to its caller. -/
def record_urdu_audio (env : RecEnv) : Bool :=
  (recordRun env).1

/-! Section: stage 4 and the orchestrator (`main`, app.py lines 133–158) -/

/-- Environment of one `main()` run: the recording environment, the whisper
output, the translation model, and whether `tts.say/runAndWait` raises
(`main` has no handler there, so a raise propagates out of `main`). -/
structure Env where
  recorder : RecEnv
  whisperOut : Option String
  nmt : String → Option String
  ttsOk : Bool

/-- The four stage functions `main` can invoke. -/
inductive Stage : Type where
  | record
  | transcribe
  | translate
  | speak
  deriving DecidableEq

/-- Observable outcome of one `main()` run: which stage functions were
invoked in order, whether `os.remove("urdu_audio.wav")` was reached, whether
the audio file exists on disk at the end, and whether `main` terminated by an
uncaught exception. -/
structure MainResult where
  invoked : List Stage
  removed : Bool
  fileOnDisk : Bool
  raised : Bool
  deriving DecidableEq

/-- Embedding of `main` (app.py lines 133–158).  Each stage's falsy result (`False` /
`None` / `""`) triggers the corresponding `return`; only after all four
stages does `os.remove` run. -/
def mainRun (env : Env) : MainResult :=
  let r := recordRun env.recorder
  if r.1 = false then
    ⟨[Stage.record], false, r.2, false⟩
  else
    match transcribe_urdu env.whisperOut with
    | none => ⟨[Stage.record, Stage.transcribe], false, r.2, false⟩
    | some u =>
      if u = "" then
        ⟨[Stage.record, Stage.transcribe], false, r.2, false⟩
      else
        match translate_urdu env.nmt u with
        | none => ⟨[Stage.record, Stage.transcribe, Stage.translate], false, r.2, false⟩
        | some e =>
          if e = "" then
            ⟨[Stage.record, Stage.transcribe, Stage.translate], false, r.2, false⟩
          else if env.ttsOk then
            ⟨[Stage.record, Stage.transcribe, Stage.translate, Stage.speak],
              true, false, false⟩
          else
            ⟨[Stage.record, Stage.transcribe, Stage.translate, Stage.speak],
              false, r.2, true⟩

/-! Section: verification-side helper definitions -/

/-- Python truthiness of a transcription/translation result: `None` and the
empty string are falsy, everything else truthy. -/
def truthy (o : Option String) : Bool :=
  match o with
  | none => false
  | some s => decide (s ≠ "")

/-- The value `main`'s third stage produces, `none` when it never runs
because transcription already failed the truthiness check. -/
def stage3Result (env : Env) : Option String :=
  match transcribe_urdu env.whisperOut with
  | none => none
  | some u => if u = "" then none else translate_urdu env.nmt u

/-- All four stages of one `main()` run succeed: recording returns `True`,
transcription and translation return truthy strings, and speech synthesis
does not raise. -/
def fullSuccess (env : Env) : Bool :=
  record_urdu_audio env.recorder && truthy (transcribe_urdu env.whisperOut) &&
    truthy (stage3Result env) && env.ttsOk

/-- Spec-side reading of the first pre-processing step of `translate_urdu`:
"replaces the Urdu full-stop glyph with a Latin period", as a character map
over the whole string. -/
def urduStopToDot (t : String) : String :=
  ⟨t.data.map (fun c => if c = '۔' then '.' else c)⟩

/-- A run whose recording stage raises during capture, with no leftover file
from an earlier run. -/
def envRecFail : Env :=
  ⟨⟨false, none, fun _ => true, true⟩, some "یہ کتاب ہے", fun _ => some "hello", true⟩

/-- A run whose recording succeeds but whose transcription yields the empty
string (a falsy, non-`None` value). -/
def envEmptyTr : Env :=
  ⟨⟨false, some [1], fun _ => true, true⟩, some "", fun _ => some "hi", true⟩

/-- A run whose recording and transcription succeed but whose translation
model decodes to the empty string. -/
def envEmptyTrans : Env :=
  ⟨⟨false, some [1], fun _ => true, true⟩, some "یہ کتاب ہے", fun _ => some "", true⟩

/-! Section: helper lemmas on the string primitives -/

theorem replaceAllF_nil (fuel : Nat) (pat repl : List Char) :
    replaceAllF fuel pat repl [] = [] := by
  cases fuel <;> rfl

theorem replaceAllF_fuel_irrel :
    ∀ (fuel fuel' : Nat) (pat repl s : List Char),
      s.length ≤ fuel → s.length ≤ fuel' →
      replaceAllF fuel pat repl s = replaceAllF fuel' pat repl s := by
  intro fuel
  induction fuel with
  | zero =>
    intro fuel' pat repl s hs _
    have hnil : s = [] := List.length_eq_zero.mp (Nat.le_zero.mp hs)
    subst hnil
    simp [replaceAllF_nil]
  | succ n ih =>
    intro fuel' pat repl s hs hs'
    cases s with
    | nil => simp [replaceAllF_nil]
    | cons c rest =>
      cases fuel' with
      | zero => simp at hs'
      | succ m =>
        simp only [replaceAllF]
        by_cases h : pat ≠ [] ∧ pat <+: (c :: rest)
        · have hlenpat : 1 ≤ pat.length := by
            cases pat with
            | nil => exact absurd rfl h.1
            | cons _ _ => simp
          have hlen : ((c :: rest).drop pat.length).length ≤ rest.length := by
            simp only [List.length_drop, List.length_cons]
            omega
          have hs1 : ((c :: rest).drop pat.length).length ≤ n := by
            have : rest.length ≤ n := by
              simpa using Nat.lt_succ_iff.mp (Nat.lt_of_lt_of_le (by simp) hs)
            omega
          have hs2 : ((c :: rest).drop pat.length).length ≤ m := by
            have : rest.length ≤ m := by
              simpa using Nat.lt_succ_iff.mp (Nat.lt_of_lt_of_le (by simp) hs')
            omega
          rw [if_pos h, if_pos h, ih m pat repl _ hs1 hs2]
        · have hr1 : rest.length ≤ n := by
            simp only [List.length_cons] at hs
            omega
          have hr2 : rest.length ≤ m := by
            simp only [List.length_cons] at hs'
            omega
          rw [if_neg h, if_neg h, ih m pat repl rest hr1 hr2]

theorem replaceAll_nil (pat repl : List Char) : replaceAll pat repl [] = [] := rfl

/-- One-step unfolding of `replaceAll` on a non-empty string. -/
theorem replaceAll_cons (pat repl : List Char) (c : Char) (rest : List Char) :
    replaceAll pat repl (c :: rest) =
      if pat ≠ [] ∧ pat <+: (c :: rest) then
        repl ++ replaceAll pat repl ((c :: rest).drop pat.length)
      else
        c :: replaceAll pat repl rest := by
  show replaceAllF (rest.length + 1) pat repl (c :: rest) = _
  simp only [replaceAllF]
  by_cases h : pat ≠ [] ∧ pat <+: (c :: rest)
  · rw [if_pos h, if_pos h]
    have hlenpat : 1 ≤ pat.length := by
      cases pat with
      | nil => exact absurd rfl h.1
      | cons _ _ => simp
    have hlen : ((c :: rest).drop pat.length).length ≤ rest.length := by
      simp only [List.length_drop, List.length_cons]
      omega
    rw [replaceAllF_fuel_irrel rest.length ((c :: rest).drop pat.length).length
      pat repl _ hlen (Nat.le_refl _)]
    rfl
  · rw [if_neg h, if_neg h]
    rfl

/-- Replacing a pattern by itself never changes the string: helper for the
identity correction map of `transcribe_urdu`. -/
theorem replaceAll_self (pat : List Char) : ∀ s, replaceAll pat pat s = s := by
  have key : ∀ (n : Nat) (s : List Char), s.length ≤ n → replaceAll pat pat s = s := by
    intro n
    induction n with
    | zero =>
      intro s hs
      have hnil : s = [] := List.length_eq_zero.mp (Nat.le_zero.mp hs)
      subst hnil
      exact replaceAll_nil pat pat
    | succ n ih =>
      intro s hs
      cases s with
      | nil => exact replaceAll_nil pat pat
      | cons c rest =>
        rw [replaceAll_cons]
        by_cases h : pat ≠ [] ∧ pat <+: (c :: rest)
        · rw [if_pos h]
          obtain ⟨t, ht⟩ := h.2
          have hdrop : (c :: rest).drop pat.length = t := by
            rw [← ht, List.drop_left]
          have hp : 1 ≤ pat.length := by
            cases pat with
            | nil => exact absurd rfl h.1
            | cons _ _ => simp
          have hlen : pat.length + t.length = rest.length + 1 := by
            have := congrArg List.length ht
            simpa using this
          have htn : t.length ≤ n := by
            simp only [List.length_cons] at hs
            omega
          rw [hdrop, ih t htn, ht]
        · rw [if_neg h]
          have hrn : rest.length ≤ n := by
            simp only [List.length_cons] at hs
            omega
          rw [ih rest hrn]
  intro s
  exact key s.length s (Nat.le_refl _)

/-- Replacing a single character by a single character is exactly a character
map over the string: helper for the Urdu full stop pre-processing. -/
theorem replaceAll_single (a b : Char) :
    ∀ s, replaceAll [a] [b] s = s.map (fun c => if c = a then b else c) := by
  have key : ∀ (n : Nat) (s : List Char), s.length ≤ n →
      replaceAll [a] [b] s = s.map (fun c => if c = a then b else c) := by
    intro n
    induction n with
    | zero =>
      intro s hs
      have hnil : s = [] := List.length_eq_zero.mp (Nat.le_zero.mp hs)
      subst hnil
      rfl
    | succ n ih =>
      intro s hs
      cases s with
      | nil => rfl
      | cons c rest =>
        have hrn : rest.length ≤ n := by
          simp only [List.length_cons] at hs
          omega
        rw [replaceAll_cons]
        by_cases hca : c = a
        · have hcond : ([a] : List Char) ≠ [] ∧ [a] <+: (c :: rest) := by
            refine ⟨by simp, ⟨rest, ?_⟩⟩
            simp [hca]
          rw [if_pos hcond]
          have hdrop : (c :: rest).drop ([a] : List Char).length = rest := by simp
          rw [hdrop, ih rest hrn]
          simp [hca]
        · have hcond : ¬ (([a] : List Char) ≠ [] ∧ [a] <+: (c :: rest)) := by
            rintro ⟨-, t, ht⟩
            have : a = c := by
              have := congrArg (fun l => l.head?) ht
              simpa using this
            exact hca this.symm
          rw [if_neg hcond, ih rest hrn]
          simp [hca]
  intro s
  exact key s.length s (Nat.le_refl _)

theorem dropLeading_idem (l : List Char) :
    dropLeading (dropLeading l) = dropLeading l := by
  induction l with
  | nil => rfl
  | cons c rest ih =>
    by_cases h : pyIsSpace c
    · simp [dropLeading, h, ih]
    · simp [dropLeading, h]

theorem dropLeading_length (l : List Char) :
    (dropLeading l).length ≤ l.length := by
  induction l with
  | nil => simp [dropLeading]
  | cons c rest ih =>
    by_cases h : pyIsSpace c
    · simp only [dropLeading, if_pos h]
      exact Nat.le_succ_of_le ih
    · simp [dropLeading, h]

theorem dropLeading_suffix (l : List Char) :
    ∃ t, t ++ dropLeading l = l := by
  induction l with
  | nil => exact ⟨[], rfl⟩
  | cons c rest ih =>
    by_cases h : pyIsSpace c
    · obtain ⟨t, ht⟩ := ih
      exact ⟨c :: t, by simp [dropLeading, h, ht]⟩
    · exact ⟨[], by simp [dropLeading, h]⟩

theorem dropLeading_of_head {y p : List Char}
    (hy : dropLeading y = y) (hp : p <+: y) : dropLeading p = p := by
  cases p with
  | nil => rfl
  | cons c p' =>
    obtain ⟨t, ht⟩ := hp
    by_cases hc : pyIsSpace c
    · exfalso
      have hy' : dropLeading (c :: (p' ++ t)) = c :: (p' ++ t) := by
        rw [List.cons_append] at ht
        rw [ht]
        exact hy
      simp only [dropLeading, if_pos hc] at hy'
      have := congrArg List.length hy'
      have hle := dropLeading_length (p' ++ t)
      simp only [List.length_cons] at this
      omega
    · simp [dropLeading, hc]

theorem pyStrip_idem (l : List Char) : pyStrip (pyStrip l) = pyStrip l := by
  have ha : dropLeading (dropLeading l) = dropLeading l := dropLeading_idem l
  have hb : dropLeading (dropLeading (dropLeading l).reverse) =
      dropLeading (dropLeading l).reverse := dropLeading_idem _
  obtain ⟨t, htb⟩ := dropLeading_suffix (dropLeading l).reverse
  have hsp : (dropLeading (dropLeading l).reverse).reverse <+: dropLeading l := by
    refine ⟨t.reverse, ?_⟩
    rw [← List.reverse_append, htb, List.reverse_reverse]
  have hs : dropLeading (dropLeading (dropLeading l).reverse).reverse =
      (dropLeading (dropLeading l).reverse).reverse :=
    dropLeading_of_head ha hsp
  show (dropLeading ((dropLeading
      ((dropLeading ((dropLeading l).reverse)).reverse)).reverse)).reverse = _
  rw [hs, List.reverse_reverse, hb]
  rfl

/-! Section: helper lemmas on the program's string processing -/

theorem pyReplace_self (t k : String) : pyReplace t k k = t := by
  cases t with
  | mk data => exact congrArg String.mk (replaceAll_self k.data data)

theorem applyCorrections_id (t : String) : applyCorrections t = t := by
  simp [applyCorrections, corrections, pyReplace_self]

theorem pyStripS_idem (s : String) : pyStripS (pyStripS s) = pyStripS s :=
  congrArg String.mk (pyStrip_idem s.data)

theorem peakAbs_of_silent {l : List ℚ} (h : ∀ x ∈ l, x = 0) : peakAbs l = 0 := by
  induction l with
  | nil => rfl
  | cons c rest ih =>
    have hc : c = 0 := h c (List.mem_cons_self c rest)
    have hr : peakAbs rest = 0 := ih (fun x hx => h x (List.mem_cons_of_mem c hx))
    simp only [peakAbs, List.map_cons, List.foldr_cons] at *
    rw [hc, hr]
    simp

/-! Section: claim theorems -/

/-- C1: for every input that is `None`, empty, or shorter than 3 characters,
`translate_urdu` returns `None` without invoking the tokenizer or the
translation model (the instrumentation flag stays `false`), whatever the
model would have answered. -/
theorem translate_rejects_short_input (nmt : String → Option String)
    (u : Option String)
    (h : u = none ∨ ∃ s, u = some s ∧ s.length < 3) :
    translate_urdu_run nmt u = (none, false) := by
  rcases h with rfl | ⟨s, rfl, hs⟩
  · rfl
  · simp [translate_urdu_run, if_pos hs]

theorem translate_rejects_short_input_witness :
    translate_urdu_run (fun s => some s) (some "اب") = (none, false) :=
  translate_rejects_short_input (fun s => some s) (some "اب")
    (Or.inr ⟨"اب", rfl, by decide⟩)

/-- C2: the fixed correction map of `transcribe_urdu` is an identity map —
every key equals its replacement value — so applying the corrections to any
string leaves it unchanged. -/
theorem corrections_map_is_identity :
    (∀ p ∈ corrections, p.1 = p.2) ∧ ∀ t, applyCorrections t = t :=
  ⟨by decide, applyCorrections_id⟩

theorem corrections_map_is_identity_witness :
    (("ہے", "ہے") : String × String).1 = (("ہے", "ہے") : String × String).2 ∧
      applyCorrections "یہ کتاب ہے" = "یہ کتاب ہے" :=
  ⟨corrections_map_is_identity.1 ("ہے", "ہے") (by decide),
    corrections_map_is_identity.2 "یہ کتاب ہے"⟩

/-- C3: applying the transcription correction map twice yields the same
result as applying it once. -/
theorem corrections_idempotent (t : String) :
    applyCorrections (applyCorrections t) = applyCorrections t := by
  rw [applyCorrections_id, applyCorrections_id]

/-- C4: whenever `transcribe_urdu` returns a string (rather than `None`),
that string carries no leading or trailing whitespace: stripping it again is
a no-op. -/
theorem transcribe_returns_stripped (w : Option String) (t : String)
    (h : transcribe_urdu w = some t) : pyStripS t = t := by
  cases w with
  | none => exact absurd h (by simp [transcribe_urdu])
  | some raw =>
    have ht : t = pyStripS raw := by
      have h' := h
      simp [transcribe_urdu, applyCorrections_id] at h'
      exact h'.symm
    rw [ht]
    exact pyStripS_idem raw

theorem transcribe_returns_stripped_witness :
    pyStripS "یہ کتاب ہے" = "یہ کتاب ہے" :=
  transcribe_returns_stripped (some "  یہ کتاب ہے ") "یہ کتاب ہے" (by decide)

/-- C5: if a stage returns its failure sentinel (`False` from recording,
`None` from transcription or translation), `main` returns immediately: the
invoked-stage trace stops at the failing stage, so no later stage function is
ever called. -/
theorem pipeline_aborts_on_stage_failure (env : Env) :
    (record_urdu_audio env.recorder = false →
      (mainRun env).invoked = [Stage.record]) ∧
    (record_urdu_audio env.recorder = true →
      transcribe_urdu env.whisperOut = none →
      (mainRun env).invoked = [Stage.record, Stage.transcribe]) ∧
    (record_urdu_audio env.recorder = true →
      ∀ u, transcribe_urdu env.whisperOut = some u → u ≠ "" →
        translate_urdu env.nmt u = none →
        (mainRun env).invoked = [Stage.record, Stage.transcribe, Stage.translate]) := by
  unfold record_urdu_audio
  refine ⟨fun h1 => ?_, fun h1 h2 => ?_, fun h1 u h2 hu h3 => ?_⟩
  · simp [mainRun, h1]
  · simp [mainRun, h1, h2]
  · simp [mainRun, h1, h2, hu, h3]

theorem pipeline_aborts_on_stage_failure_witness :
    (mainRun envRecFail).invoked = [Stage.record] :=
  (pipeline_aborts_on_stage_failure envRecFail).1 (by decide)

/-- C10: `main` treats a falsy stage result identically to `None`: if
transcription or translation returns the empty string (a non-null value),
the run aborts there — later stages and the file cleanup are not executed. -/
theorem empty_string_aborts_pipeline (env : Env) :
    (record_urdu_audio env.recorder = true →
      transcribe_urdu env.whisperOut = some "" →
      (mainRun env).invoked = [Stage.record, Stage.transcribe] ∧
        (mainRun env).removed = false) ∧
    (record_urdu_audio env.recorder = true →
      ∀ u, transcribe_urdu env.whisperOut = some u → u ≠ "" →
        translate_urdu env.nmt u = some "" →
        (mainRun env).invoked = [Stage.record, Stage.transcribe, Stage.translate] ∧
          (mainRun env).removed = false) := by
  unfold record_urdu_audio
  refine ⟨fun h1 h2 => ?_, fun h1 u h2 hu h3 => ?_⟩
  · simp [mainRun, h1, h2]
  · simp [mainRun, h1, h2, hu, h3]

theorem empty_string_aborts_pipeline_witness :
    (mainRun envEmptyTr).invoked = [Stage.record, Stage.transcribe] ∧
      (mainRun envEmptyTr).removed = false :=
  (empty_string_aborts_pipeline envEmptyTr).1 (by decide) (by decide)

/-- C6, counterexample to the claim as stated: a run whose recording stage
raises during capture (before the file write), with no leftover file from an
earlier run.  The run aborts early and the removal statement is not reached —
but the audio file does **not** remain on disk, because it was never
created. -/
theorem cleanup_on_abort_counterexample :
    (mainRun envRecFail).invoked = [Stage.record] ∧
      (mainRun envRecFail).removed = false ∧
      (mainRun envRecFail).fileOnDisk = false := by
  decide

/-- C6, amended: the `os.remove` statement is reached exactly when all four
stages succeed; a successful run leaves no file behind; and on any early
abort the removal statement is not reached, so the disk keeps whatever state
the recording stage left it in (the file remains on disk provided recording
actually wrote it). -/
theorem cleanup_iff_full_success (env : Env) :
    ((mainRun env).removed = fullSuccess env) ∧
    (fullSuccess env = true → (mainRun env).fileOnDisk = false) ∧
    ((mainRun env).removed = false →
      (mainRun env).fileOnDisk = (recordRun env.recorder).2) := by
  cases hr : (recordRun env.recorder).1 with
  | false => simp [mainRun, fullSuccess, stage3Result, truthy, record_urdu_audio, hr]
  | true =>
    cases ht : transcribe_urdu env.whisperOut with
    | none => simp [mainRun, fullSuccess, stage3Result, truthy, record_urdu_audio, hr, ht]
    | some u =>
      by_cases hu : u = ""
      · simp [mainRun, fullSuccess, stage3Result, truthy, record_urdu_audio, hr, ht, hu]
      · cases htr : translate_urdu env.nmt u with
        | none =>
          simp [mainRun, fullSuccess, stage3Result, truthy, record_urdu_audio,
            hr, ht, hu, htr]
        | some e =>
          by_cases he : e = ""
          · simp [mainRun, fullSuccess, stage3Result, truthy, record_urdu_audio,
              hr, ht, hu, htr, he]
          · cases htts : env.ttsOk with
            | false =>
              simp [mainRun, fullSuccess, stage3Result, truthy, record_urdu_audio,
                hr, ht, hu, htr, he, htts]
            | true =>
              simp [mainRun, fullSuccess, stage3Result, truthy, record_urdu_audio,
                hr, ht, hu, htr, he, htts]

theorem cleanup_iff_full_success_witness :
    (mainRun envRecFail).fileOnDisk = (recordRun envRecFail.recorder).2 :=
  (cleanup_iff_full_success envRecFail).2.2 (by decide)

/-- C7: `record_urdu_audio` is a total Boolean function of its environment —
it never propagates an exception — and it returns `True` exactly when
capture, the file write of the normalized buffer, and the pydub pass all
succeed; any exception in those steps makes it return `False`. -/
theorem record_never_raises (env : RecEnv) :
    record_urdu_audio env = true ↔
      ∃ audio, env.capture = some audio ∧ env.write (normalize audio) = true ∧
        env.pydubOk = true := by
  unfold record_urdu_audio recordRun
  cases hc : env.capture with
  | none => simp
  | some audio =>
    by_cases hw : env.write (normalize audio) = true
    · by_cases hp : env.pydubOk = true
      · simp [hw, hp]
      · simp [hw, hp]
    · simp [hw]

/-- C8: the recorder normalizes by dividing every sample by the buffer's peak
absolute amplitude, with no guard: on a silent (all-zero, non-empty) buffer
the divisor is `0`, every sample is divided by zero, and the result fails the
full-scale normalization invariant (its peak is not 1). -/
theorem silent_buffer_divides_by_zero (audio : List ℚ)
    (_hne : audio ≠ []) (hz : ∀ x ∈ audio, x = 0) :
    peakAbs audio = 0 ∧
      normalize audio = audio.map (fun x => x / 0) ∧
      peakAbs (normalize audio) ≠ 1 := by
  have hpeak : peakAbs audio = 0 := peakAbs_of_silent hz
  refine ⟨hpeak, ?_, ?_⟩
  · simp only [normalize, hpeak]
  · have hz' : ∀ y ∈ normalize audio, y = 0 := by
      intro y hy
      simp only [normalize, List.mem_map] at hy
      obtain ⟨x, hx, rfl⟩ := hy
      rw [hz x hx, hpeak]
      norm_num
    rw [peakAbs_of_silent hz']
    norm_num

theorem silent_buffer_divides_by_zero_witness :
    peakAbs [(0 : ℚ), 0, 0] = 0 ∧
      normalize [(0 : ℚ), 0, 0] = [(0 : ℚ), 0, 0].map (fun x => x / 0) ∧
      peakAbs (normalize [(0 : ℚ), 0, 0]) ≠ 1 :=
  silent_buffer_divides_by_zero [0, 0, 0] (by decide) (by decide)

/-- C9: for every accepted input (length at least 3), the text handed to the
tokenizer/model is the input with every occurrence of the Urdu full stop
`۔` mapped to a Latin period `.` and every occurrence of `ہے` replaced by
itself surrounded by single padding spaces; the final answer is the model
output with the post-translation fixes applied. -/
theorem translate_preprocessing (nmt : String → Option String) (t : String)
    (h : 3 ≤ t.length) :
    translate_urdu nmt t =
      Option.map applyFixes
        (nmt (pyReplace (urduStopToDot t) "ہے" (" " ++ "ہے" ++ " "))) := by
  have h1 : pyReplace t "۔" "." = urduStopToDot t :=
    congrArg String.mk (replaceAll_single '۔' '.' t.data)
  have h2 : preprocess t = pyReplace (urduStopToDot t) "ہے" (" " ++ "ہے" ++ " ") := by
    unfold preprocess
    rw [h1]
    rw [show (" " ++ "ہے" ++ " " : String) = " ہے " from by decide]
  simp only [translate_urdu, translate_urdu_run]
  rw [if_neg (by omega : ¬ t.length < 3), h2]
  cases hn : nmt (pyReplace (urduStopToDot t) "ہے" (" " ++ "ہے" ++ " ")) <;>
    simp [hn]

theorem translate_preprocessing_witness :
    translate_urdu (fun _ => some "I am fine") "کتاب ہے۔" = some "I fine" :=
  (translate_preprocessing (fun _ => some "I am fine") "کتاب ہے۔" (by decide)).trans
    (by decide)
